import Mathlib

/-!
Verification of the CSV bulk-load core (`back_go/csv/processor.go`) of the
bce-search-engine repository.

The Go code is shallowly embedded: the destination database, whose behaviour is
outside the program, is modelled by an oracle of success/failure answers for
each statement it is asked to execute, and the CSV reader by the list of results
its successive `Read()` calls produce.  Every function of the Go file has a
Lean counterpart with the same name and control flow.
-/

namespace BCE

/-! ## Header normalization (`ProcessCSVOptimized`, lines 48-50)

`strings.ReplaceAll(header, " ", "_")`, then `strings.ReplaceAll(·, "-", "_")`,
then `strings.ToLower`.  Since both patterns are single characters, each
`ReplaceAll` is a character-wise map; `ToLower` is modelled on the basic latin
range, where Go's simple case mapping adds 32 to `A`..`Z`. -/

/-- One character of `strings.ReplaceAll(s, " ", "_")`. -/
def spaceToUnderscore (c : Char) : Char := if c = ' ' then '_' else c

/-- One character of `strings.ReplaceAll(s, "-", "_")`. -/
def hyphenToUnderscore (c : Char) : Char := if c = '-' then '_' else c

/-- One character of `strings.ToLower` (basic latin range of Go's simple case
mapping: `A`..`Z`, code points 65-90, map 32 code points up). -/
def lowerChar (c : Char) : Char :=
  if 65 ≤ c.toNat ∧ c.toNat ≤ 90 then Char.ofNat (c.toNat + 32) else c

/-- Character list of `cleanHeader`: replace spaces, then hyphens, then
lowercase (lines 48-50, in source order). -/
def cleanChars (l : List Char) : List Char :=
  ((l.map spaceToUnderscore).map hyphenToUnderscore).map lowerChar

/-- `cleanHeader` built in `ProcessCSVOptimized` lines 48-50. -/
def cleanHeader (s : String) : String :=
  ⟨cleanChars s.data⟩

/-- The normalization rule as the spec words it ("lowercase, spaces and hyphens
replaced with underscores"): lowercase first, then the two replacements. -/
def specNormalize (s : String) : String :=
  ⟨((s.data.map lowerChar).map spaceToUnderscore).map hyphenToUnderscore⟩

/-- A column of the created relation: `cleanHeader + " TEXT"` in the
`CREATE TABLE` statement (line 52). -/
structure Column where
  name : String
  sqlType : String
deriving DecidableEq, Repr

/-- The schema derived from the header row (lines 45-53): one `TEXT` column per
header field, in order, named by `cleanHeader`; no collision detection. -/
def deriveSchema (headers : List String) : List Column :=
  headers.map (fun h => ⟨cleanHeader h, "TEXT"⟩)

/-- The `cleanHeaders` slice (line 46-51), used as the `pq.CopyIn` column list. -/
def cleanHeaders (headers : List String) : List String :=
  headers.map cleanHeader

/-! ## The bulk-copy engine

The destination database and the CSV reader are external to the program, so
they are modelled by oracles:

* the reader by the list of results its successive `Read()` calls return —
  either a record or an error carrying the message `err.Error()` would give
  (reading past the end of the list is `io.EOF`, whose message is `"EOF"`);
* the database by a `DBOracle` answering, for each statement the program
  submits, whether the destination accepts it.

Each branch of the Lean functions below mirrors one branch of the Go code. -/

deriving instance DecidableEq for Except

/-- A record: ordered sequence of string fields. -/
abbrev Record := List String

/-- Result of one `reader.Read()` call: a record, or an error with message. -/
abbrev ReadEvent := Except String Record

/-- The errors `ProcessCSVOptimized`/`copyInsert` build with `fmt.Errorf`; each
constructor is one format string, carrying its arguments. -/
inductive LoadError
  | openFile
  | readHeader (msg : String)
  | dropTable
  | createTable
  | beginTx
  | prepareCopy
  | readLine (k : Nat) (msg : String)
  | copyLine (k : Nat)
  | finalizeCopy
  | closeCopy
  | commitTx
deriving DecidableEq, Repr

/-- SQL statements issued through `db.Exec`. -/
inductive Stmt
  | tune (i : Nat)
  | dropTable (name : String)
  | createTable (name : String) (cols : List Column)
deriving DecidableEq, Repr

/-- Observable operations against the destination, in program order. -/
inductive Effect
  | exec (s : Stmt)
  | beginTx
  | prepareCopy (name : String) (cols : List String)
  | submitRow (k : Nat) (r : Record)
  | finalizeCopy
  | closeCopy
  | commitTx
  | rollbackTx
deriving DecidableEq, Repr

/-- The destination's answers: whether it accepts each operation.
`submitOk k` answers the submission of the k-th data record (1-based). -/
structure DBOracle where
  tuneOk : Nat → Bool
  dropOk : Bool
  createOk : Bool
  beginOk : Bool
  prepareOk : Bool
  submitOk : Nat → Bool
  finalizeOk : Bool
  closeOk : Bool
  commitOk : Bool

/-- The `for` loop of `copyInsert` (lines 96-123): read a record; on a read
error break if the message is exactly `"EOF"`, else fail with the 1-based line
index; otherwise submit it to the COPY statement, failing with the index if the
destination rejects it.  Returns the outcome (`lineCount` or the first error),
the effects performed, and the number of records submitted so far (`n` is the
incoming `lineCount`). -/
def copyLoop (o : DBOracle) : List ReadEvent → Nat →
    Except LoadError Nat × List Effect × Nat
  | [], n => (.ok n, [], n)
  | .error m :: _, n =>
      if m = "EOF" then (.ok n, [], n)
      else (.error (.readLine (n + 1) m), [], n)
  | .ok r :: rest, n =>
      if o.submitOk (n + 1) then
        let res := copyLoop o rest (n + 1)
        (res.1, .submitRow (n + 1) r :: res.2.1, res.2.2)
      else (.error (.copyLine (n + 1)), [.submitRow (n + 1) r], n)

/-- Result of `copyInsert`: the Go return value `(int, error)`, plus the
observable effects, the number of records submitted to the COPY channel,
whether `tx.Begin` succeeded, and whether `tx.Commit` succeeded. -/
structure CopyResult where
  outcome : Except LoadError Nat
  trace : List Effect
  submitted : Nat
  begun : Bool
  committed : Bool
deriving DecidableEq, Repr

/-- `copyInsert` (lines 76-140): begin a transaction (deferred rollback),
prepare `pq.CopyIn(tableName, headers...)`, stream every record, then the
zero-argument finalizing `stmt.Exec()`, `stmt.Close()`, and `tx.Commit()`.
Every failure returns immediately; the deferred `tx.Rollback()` then takes
effect (after a successful commit it is a no-op). -/
def copyInsert (o : DBOracle) (tableName : String) (headers : List String)
    (s : List ReadEvent) : CopyResult :=
  if o.beginOk then
    if o.prepareOk then
      let res := copyLoop o s 0
      let pre : List Effect := [.beginTx, .prepareCopy tableName headers]
      match res.1 with
      | .ok n =>
        if o.finalizeOk then
          if o.closeOk then
            if o.commitOk then
              { outcome := .ok n,
                trace := pre ++ res.2.1 ++ [.finalizeCopy, .closeCopy, .commitTx],
                submitted := res.2.2, begun := true, committed := true }
            else
              { outcome := .error .commitTx,
                trace := pre ++ res.2.1 ++ [.finalizeCopy, .closeCopy, .commitTx, .rollbackTx],
                submitted := res.2.2, begun := true, committed := false }
          else
            { outcome := .error .closeCopy,
              trace := pre ++ res.2.1 ++ [.finalizeCopy, .closeCopy, .rollbackTx],
              submitted := res.2.2, begun := true, committed := false }
        else
          { outcome := .error .finalizeCopy,
            trace := pre ++ res.2.1 ++ [.finalizeCopy, .rollbackTx],
            submitted := res.2.2, begun := true, committed := false }
      | .error e =>
        { outcome := .error e,
          trace := pre ++ res.2.1 ++ [.rollbackTx],
          submitted := res.2.2, begun := true, committed := false }
    else
      { outcome := .error .prepareCopy,
        trace := [.beginTx, .prepareCopy tableName headers, .rollbackTx],
        submitted := 0, begun := true, committed := false }
  else
    { outcome := .error .beginTx, trace := [.beginTx],
      submitted := 0, begun := false, committed := false }

/-- Rows visible at the destination after the copy phase: the transaction's
rows become visible exactly when it committed. -/
def visibleRows (c : CopyResult) : Nat :=
  if c.committed then c.submitted else 0

/-- Number of data records a reader yields before its first error (the records
the loop can actually read and submit). -/
def countRecords : List ReadEvent → Nat
  | [] => 0
  | .error _ :: _ => 0
  | .ok _ :: rest => countRecords rest + 1

/-- The nine tuning statements of `optimizeForBulkInsert` (lines 143-153). -/
def tuneStatementCount : Nat := 9

/-- The `for` loop of `optimizeForBulkInsert` (lines 155-159): execute each
statement; `continue` on error — either way the next statement is attempted. -/
def tuneLoop (o : DBOracle) : List Nat → List Effect
  | [] => []
  | i :: rest =>
      if o.tuneOk i then .exec (.tune i) :: tuneLoop o rest
      else .exec (.tune i) :: tuneLoop o rest

/-- `optimizeForBulkInsert` (lines 142-163): best-effort tuning batch; always
returns `nil`. -/
def optimizeForBulkInsert (o : DBOracle) : Except LoadError Unit × List Effect :=
  (.ok (), tuneLoop o (List.range tuneStatementCount))

/-- The final summary printed on success (line 71-72): count, elapsed seconds,
and lines per second. -/
structure LoadReport where
  recordCount : Nat
  elapsedSeconds : ℚ
  recordsPerSecond : ℚ
deriving DecidableEq, Repr

/-- State of the destination relation with the target name. -/
structure Table where
  name : String
  cols : List Column
  rows : Nat
deriving DecidableEq, Repr

/-- Result of `ProcessCSVOptimized`: the Go `error` return, the printed final
report, the state of the target relation, and the effects performed. -/
structure ProcResult where
  outcome : Except LoadError Unit
  report : Option LoadReport
  table : Option Table
  trace : List Effect
deriving DecidableEq, Repr

/-- `ProcessCSVOptimized` (lines 15-74).  `openOk` models `os.Open`, `s` the
reader's successive results (first one is the header row), `elapsed` the
wall-clock seconds `time.Since(start)` measures, `init` the pre-existing
relation with the target name. -/
def ProcessCSVOptimized (o : DBOracle) (openOk : Bool) (elapsed : ℚ)
    (tableName : String) (s : List ReadEvent) (init : Option Table) : ProcResult :=
  if openOk then
    match s with
    | [] =>
      { outcome := .error (.readHeader "EOF"), report := none, table := init, trace := [] }
    | .error m :: _ =>
      { outcome := .error (.readHeader m), report := none, table := init, trace := [] }
    | .ok headers :: rest =>
      let tuning := (optimizeForBulkInsert o).2
      if o.dropOk then
        if o.createOk then
          let schema := deriveSchema headers
          let c := copyInsert o tableName (cleanHeaders headers) rest
          let tr := tuning ++ [.exec (.dropTable tableName),
            .exec (.createTable tableName schema)] ++ c.trace
          let tbl : Option Table := some ⟨tableName, schema, visibleRows c⟩
          match c.outcome with
          | .ok n =>
            { outcome := .ok (),
              report := some ⟨n, elapsed, (n : ℚ) / elapsed⟩,
              table := tbl, trace := tr }
          | .error e =>
            { outcome := .error e, report := none, table := tbl, trace := tr }
        else
          { outcome := .error .createTable, report := none, table := none,
            trace := tuning ++ [.exec (.dropTable tableName),
              .exec (.createTable tableName (deriveSchema headers))] }
      else
        { outcome := .error .dropTable, report := none, table := init,
          trace := tuning ++ [.exec (.dropTable tableName)] }
  else
    { outcome := .error .openFile, report := none, table := init, trace := [] }

/-- `ProcessCSV` (lines 166-168): kept for compatibility, delegates to
`ProcessCSVOptimized`. -/
def ProcessCSV (o : DBOracle) (openOk : Bool) (elapsed : ℚ)
    (tableName : String) (s : List ReadEvent) (init : Option Table) : ProcResult :=
  ProcessCSVOptimized o openOk elapsed tableName s init

/-- Effects of submitting the records `rs` when the loop counter starts at
`n`: row `n+1`, `n+2`, ... -/
def submitTrace (rs : List Record) (n : Nat) : List Effect :=
  match rs with
  | [] => []
  | r :: rest => .submitRow (n + 1) r :: submitTrace rest (n + 1)

/-- A destination that accepts everything. -/
def allOkOracle : DBOracle :=
  ⟨fun _ => true, true, true, true, true, fun _ => true, true, true, true⟩

/-- A destination that rejects the submission of the second record and accepts
everything else. -/
def failSecondOracle : DBOracle :=
  { allOkOracle with submitOk := fun k => k != 2 }

/-- A destination that accepts only the submission of the first record (and
every non-row operation). -/
def onlyFirstOracle : DBOracle :=
  { allOkOracle with submitOk := fun k => k == 1 }

/-! ### Character-level lemmas -/

theorem toNat_ofNat_of_lt {n : Nat} (h : n < 0xd800) : (Char.ofNat n).toNat = n := by
  have hv : n.isValidChar := Or.inl h
  simp [Char.ofNat, dif_pos hv, Char.ofNatAux, Char.toNat, UInt32.toNat,
    BitVec.toNat_ofNatLt]

theorem char_eq_of_toNat_eq {c d : Char} (h : c.toNat = d.toNat) : c = d :=
  Char.eq_of_val_eq (UInt32.ext h)

theorem spaceToUnderscore_ne_space (c : Char) : spaceToUnderscore c ≠ ' ' := by
  unfold spaceToUnderscore
  split
  · decide
  · assumption

theorem hyphenToUnderscore_ne_hyphen (c : Char) : hyphenToUnderscore c ≠ '-' := by
  unfold hyphenToUnderscore
  split
  · decide
  · assumption

theorem hyphenToUnderscore_ne_space (c : Char) (h : c ≠ ' ') :
    hyphenToUnderscore c ≠ ' ' := by
  unfold hyphenToUnderscore
  split
  · decide
  · exact h

theorem lowerChar_toNat (c : Char) :
    (lowerChar c).toNat = if 65 ≤ c.toNat ∧ c.toNat ≤ 90 then c.toNat + 32 else c.toNat := by
  unfold lowerChar
  split
  · next h => exact toNat_ofNat_of_lt (by omega)
  · next h => rfl

theorem lowerChar_ne_space (c : Char) (h : c ≠ ' ') : lowerChar c ≠ ' ' := by
  intro he
  have ht := lowerChar_toNat c
  rw [he] at ht
  have hsp : (' ' : Char).toNat = 32 := rfl
  by_cases hc : 65 ≤ c.toNat ∧ c.toNat ≤ 90
  · rw [if_pos hc] at ht
    omega
  · rw [if_neg hc] at ht
    exact h (char_eq_of_toNat_eq (by omega))

theorem lowerChar_ne_hyphen (c : Char) (h : c ≠ '-') : lowerChar c ≠ '-' := by
  intro he
  have ht := lowerChar_toNat c
  rw [he] at ht
  have hhy : ('-' : Char).toNat = 45 := rfl
  by_cases hc : 65 ≤ c.toNat ∧ c.toNat ≤ 90
  · rw [if_pos hc] at ht
    omega
  · rw [if_neg hc] at ht
    exact h (char_eq_of_toNat_eq (by omega))

theorem lowerChar_not_upper (c : Char) :
    ¬(65 ≤ (lowerChar c).toNat ∧ (lowerChar c).toNat ≤ 90) := by
  have ht := lowerChar_toNat c
  by_cases hc : 65 ≤ c.toNat ∧ c.toNat ≤ 90
  · rw [if_pos hc] at ht
    omega
  · rw [if_neg hc] at ht
    omega

theorem lowerChar_eq_self_of_not_upper (c : Char)
    (h : ¬(65 ≤ c.toNat ∧ c.toNat ≤ 90)) : lowerChar c = c := by
  unfold lowerChar
  rw [if_neg h]

theorem lowerChar_idem (c : Char) : lowerChar (lowerChar c) = lowerChar c :=
  lowerChar_eq_self_of_not_upper (lowerChar c) (lowerChar_not_upper c)

theorem spaceToUnderscore_eq_self (c : Char) (h : c ≠ ' ') :
    spaceToUnderscore c = c := by
  unfold spaceToUnderscore
  rw [if_neg h]

theorem hyphenToUnderscore_eq_self (c : Char) (h : c ≠ '-') :
    hyphenToUnderscore c = c := by
  unfold hyphenToUnderscore
  rw [if_neg h]

/-- The character-wise composition performed by the source: replace space, then
hyphen, then lowercase. -/
theorem normChar_idem (c : Char) :
    lowerChar (hyphenToUnderscore (spaceToUnderscore
      (lowerChar (hyphenToUnderscore (spaceToUnderscore c))))) =
    lowerChar (hyphenToUnderscore (spaceToUnderscore c)) := by
  have h1 : spaceToUnderscore c ≠ ' ' := spaceToUnderscore_ne_space c
  have h2 : hyphenToUnderscore (spaceToUnderscore c) ≠ ' ' :=
    hyphenToUnderscore_ne_space _ h1
  have h3 : hyphenToUnderscore (spaceToUnderscore c) ≠ '-' :=
    hyphenToUnderscore_ne_hyphen _
  have h4 := lowerChar_ne_space _ h2
  have h5 := lowerChar_ne_hyphen _ h3
  rw [spaceToUnderscore_eq_self _ h4, hyphenToUnderscore_eq_self _ h5,
    lowerChar_idem]

/-- Lowercasing commutes with the underscore replacements (the spec words the
rule with lowercasing first, the source lowercases last). -/
theorem normChar_comm (c : Char) :
    hyphenToUnderscore (spaceToUnderscore (lowerChar c)) =
    lowerChar (hyphenToUnderscore (spaceToUnderscore c)) := by
  by_cases hs : c = ' '
  · subst hs
    decide
  · by_cases hh : c = '-'
    · subst hh
      decide
    · rw [spaceToUnderscore_eq_self c hs, hyphenToUnderscore_eq_self c hh,
        spaceToUnderscore_eq_self _ (lowerChar_ne_space c hs),
        hyphenToUnderscore_eq_self _ (lowerChar_ne_hyphen c hh)]

theorem cleanChars_eq_map (l : List Char) :
    cleanChars l = l.map fun c =>
      lowerChar (hyphenToUnderscore (spaceToUnderscore c)) := by
  simp [cleanChars, List.map_map, Function.comp]

theorem cleanHeader_eq_specNormalize (s : String) :
    cleanHeader s = specNormalize s := by
  apply congrArg String.mk
  rw [cleanChars_eq_map]
  simp only [List.map_map, Function.comp]
  exact (List.map_congr_left fun c _ => normChar_comm c).symm

theorem cleanChars_idem (l : List Char) :
    cleanChars (cleanChars l) = cleanChars l := by
  simp only [cleanChars_eq_map, List.map_map, Function.comp_def]
  exact List.map_congr_left fun c _ => normChar_idem c

theorem cleanHeader_idem (s : String) : cleanHeader (cleanHeader s) = cleanHeader s :=
  congrArg String.mk (cleanChars_idem s.data)

/-! ## Claims C2 and C8 -/

/-- C2: schema derivation correctness — the derived schema has exactly one
column per header field, in the same order, each typed as unconstrained text,
the i-th column's name is the i-th header field lowercased with every space and
hyphen replaced by an underscore; no collision detection: two header fields
normalizing to the same name yield duplicate column names. -/
theorem derive_schema_correct :
    (∀ hs : List String, (deriveSchema hs).length = hs.length) ∧
    (∀ (hs : List String) (i : Nat),
      (deriveSchema hs)[i]? = (hs[i]?).map fun h => Column.mk (specNormalize h) "TEXT") ∧
    (deriveSchema ["A B", "a_b"]).map Column.name = ["a_b", "a_b"] := by
  refine ⟨fun hs => by simp [deriveSchema], fun hs i => ?_, by decide⟩
  simp [deriveSchema, List.getElem?_map, cleanHeader_eq_specNormalize]

/-- C8: header-name normalization is idempotent and pure — it is a function of
its argument alone (it is modelled as a pure Lean function mirroring the three
`strings` calls of lines 48-50, which have no side effects), applying it twice
equals applying it once, and the two documented examples hold. -/
theorem normalize_idempotent_pure :
    (∀ x : String, cleanHeader (cleanHeader x) = cleanHeader x) ∧
    cleanHeader "First Name" = "first_name" ∧
    cleanHeader "Last-Name" = "last_name" :=
  ⟨cleanHeader_idem, by decide, by decide⟩

/-! ### Copy-engine lemmas -/

theorem tuneLoop_eq (o : DBOracle) (l : List Nat) :
    tuneLoop o l = l.map fun i => .exec (.tune i) := by
  induction l with
  | nil => rfl
  | cons i rest ih =>
      unfold tuneLoop
      split <;> simp [ih]

theorem copyInsert_trace_head (o : DBOracle) (t : String) (h : List String)
    (s : List ReadEvent) : ((copyInsert o t h s).trace).head? = some .beginTx := by
  unfold copyInsert
  rcases hres : (copyLoop o s 0).1 with e | n <;>
    by_cases hb : o.beginOk <;> by_cases hp : o.prepareOk <;>
    by_cases hf : o.finalizeOk <;> by_cases hcl : o.closeOk <;>
    by_cases hcm : o.commitOk <;>
    simp [hb, hp, hf, hcl, hcm, hres]

theorem copyInsert_error_not_committed (o : DBOracle) (t : String)
    (h : List String) (s : List ReadEvent) (e : LoadError)
    (he : (copyInsert o t h s).outcome = .error e) :
    (copyInsert o t h s).committed = false := by
  unfold copyInsert at he ⊢
  rcases hres : (copyLoop o s 0).1 with e' | n <;>
    by_cases hb : o.beginOk <;> by_cases hp : o.prepareOk <;>
    by_cases hf : o.finalizeOk <;> by_cases hcl : o.closeOk <;>
    by_cases hcm : o.commitOk <;>
    simp_all [hb, hp, hf, hcl, hcm, hres]

theorem copyInsert_error_rollback (o : DBOracle) (t : String)
    (h : List String) (s : List ReadEvent) (e : LoadError)
    (he : (copyInsert o t h s).outcome = .error e)
    (hb : (copyInsert o t h s).begun = true) :
    Effect.rollbackTx ∈ (copyInsert o t h s).trace := by
  unfold copyInsert at he hb ⊢
  rcases hres : (copyLoop o s 0).1 with e' | n <;>
    by_cases hb' : o.beginOk <;> by_cases hp : o.prepareOk <;>
    by_cases hf : o.finalizeOk <;> by_cases hcl : o.closeOk <;>
    by_cases hcm : o.commitOk <;>
    simp_all [hb', hp, hf, hcl, hcm, hres]

theorem copyInsert_ok_cases (o : DBOracle) (t : String) (h : List String)
    (s : List ReadEvent) (n : Nat)
    (he : (copyInsert o t h s).outcome = .ok n) :
    (copyLoop o s 0).1 = .ok n ∧ (copyInsert o t h s).submitted = (copyLoop o s 0).2.2 ∧
    (copyInsert o t h s).committed = true ∧
    o.beginOk = true ∧ o.prepareOk = true ∧ o.finalizeOk = true ∧
    o.closeOk = true ∧ o.commitOk = true := by
  unfold copyInsert at he ⊢
  rcases hres : (copyLoop o s 0).1 with e' | n' <;>
    by_cases hb : o.beginOk <;> by_cases hp : o.prepareOk <;>
    by_cases hf : o.finalizeOk <;> by_cases hcl : o.closeOk <;>
    by_cases hcm : o.commitOk <;>
    simp_all [hb, hp, hf, hcl, hcm, hres]

theorem copyLoop_ok_count (o : DBOracle) (s : List ReadEvent) (n m : Nat)
    (h : (copyLoop o s n).1 = .ok m) :
    m = n + countRecords s ∧ (copyLoop o s n).2.2 = m := by
  induction s generalizing n with
  | nil =>
      simp only [copyLoop] at h ⊢
      have : n = m := by simpa using h
      simp [countRecords, this]
  | cons e rest ih =>
      cases e with
      | error msg =>
          by_cases hm : msg = "EOF"
          · simp only [copyLoop, hm, if_true] at h ⊢
            have : n = m := by simpa using h
            simp [countRecords, this]
          · simp only [copyLoop, hm, if_false] at h
            simp at h
      | ok r =>
          by_cases hk : o.submitOk (n + 1)
          · simp only [copyLoop, hk, if_true, countRecords] at h ⊢
            obtain ⟨h1, h2⟩ := ih (n + 1) h
            exact ⟨by omega, h2⟩
          · simp only [copyLoop, hk, if_false] at h
            simp at h

theorem copyLoop_over_records (o : DBOracle) (rs : List Record)
    (tail : List ReadEvent) (n : Nat)
    (h : ∀ k, n < k → k ≤ n + rs.length → o.submitOk k = true) :
    copyLoop o (rs.map .ok ++ tail) n =
      ((copyLoop o tail (n + rs.length)).1,
        submitTrace rs n ++ (copyLoop o tail (n + rs.length)).2.1,
        (copyLoop o tail (n + rs.length)).2.2) := by
  induction rs generalizing n with
  | nil => simp [submitTrace]
  | cons r rest ih =>
      have hk : o.submitOk (n + 1) = true :=
        h (n + 1) (by omega) (by simp only [List.length_cons]; omega)
      have harith : n + 1 + rest.length = n + (rest.length + 1) := by omega
      simp only [List.map_cons, List.cons_append, copyLoop, hk, if_true, submitTrace,
        List.append_eq]
      rw [ih (n + 1) (fun k hk1 hk2 => h k (by omega)
        (by simp only [List.length_cons]; omega))]
      simp [harith]

theorem copyLoop_tuneOk_irrel (o : DBOracle) (f : Nat → Bool)
    (s : List ReadEvent) (n : Nat) :
    copyLoop { o with tuneOk := f } s n = copyLoop o s n := by
  induction s generalizing n with
  | nil => rfl
  | cons e rest ih =>
      cases e with
      | error msg => rfl
      | ok r => simp only [copyLoop, ih]

theorem copyInsert_tuneOk_irrel (o : DBOracle) (f : Nat → Bool) (t : String)
    (h : List String) (s : List ReadEvent) :
    copyInsert { o with tuneOk := f } t h s = copyInsert o t h s := by
  unfold copyInsert
  rw [copyLoop_tuneOk_irrel]

/-! ## Claims about the copy engine -/

/-- C1: all-or-nothing copy — for every destination behaviour and record
source, whenever `copyInsert` fails (for any reason after `tx.Begin`:
preparing the COPY channel, submitting any record, finalizing, closing, or
committing), it returns an error, the transaction is rolled back, and zero
rows are visible at the destination; and rows are visible (the copy is
committed) only when the streaming loop, finalize, close and commit all
succeeded, in which case every record read was submitted. -/
theorem copy_all_or_nothing (o : DBOracle) (t : String) (hdrs : List String)
    (s : List ReadEvent) :
    (∀ e : LoadError, (copyInsert o t hdrs s).outcome = .error e →
      (copyInsert o t hdrs s).committed = false ∧
      visibleRows (copyInsert o t hdrs s) = 0 ∧
      ((copyInsert o t hdrs s).begun = true →
        Effect.rollbackTx ∈ (copyInsert o t hdrs s).trace)) ∧
    ((copyInsert o t hdrs s).committed = true →
      ∃ n, (copyInsert o t hdrs s).outcome = .ok n ∧
        (copyLoop o s 0).1 = .ok n ∧
        o.finalizeOk = true ∧ o.closeOk = true ∧ o.commitOk = true) := by
  constructor
  · intro e he
    have hc := copyInsert_error_not_committed o t hdrs s e he
    exact ⟨hc, by simp [visibleRows, hc], copyInsert_error_rollback o t hdrs s e he⟩
  · intro hc
    rcases ho : (copyInsert o t hdrs s).outcome with e | n
    · rw [copyInsert_error_not_committed o t hdrs s e ho] at hc
      cases hc
    · obtain ⟨h1, _, _, _, _, h6, h7, h8⟩ := copyInsert_ok_cases o t hdrs s n ho
      exact ⟨n, rfl, h1, h6, h7, h8⟩

/-- Witness for C1: rejecting the second of three records yields an error,
zero visible rows, and a rollback. -/
theorem copy_all_or_nothing_witness :
    (copyInsert failSecondOracle "t" ["a"] [.ok ["x"], .ok ["y"], .ok ["z"]]).committed = false ∧
    visibleRows (copyInsert failSecondOracle "t" ["a"] [.ok ["x"], .ok ["y"], .ok ["z"]]) = 0 ∧
    Effect.rollbackTx ∈
      (copyInsert failSecondOracle "t" ["a"] [.ok ["x"], .ok ["y"], .ok ["z"]]).trace := by
  have h := (copy_all_or_nothing failSecondOracle "t" ["a"]
    [.ok ["x"], .ok ["y"], .ok ["z"]]).1 (.copyLine 2) (by decide)
  exact ⟨h.1, h.2.1, h.2.2 (by decide)⟩

/-- C5: tuning is best-effort — `optimizeForBulkInsert` attempts all nine
statements whatever the destination accepts, never returns an error, and the
whole load result is unchanged by which tuning statements the destination
rejects (no tuning failure is surfaced as a failure of the load). -/
theorem tuning_best_effort :
    (∀ o : DBOracle, (optimizeForBulkInsert o).1 = .ok () ∧
      (optimizeForBulkInsert o).2 =
        (List.range tuneStatementCount).map fun i => .exec (.tune i)) ∧
    (∀ (o : DBOracle) (f g : Nat → Bool) (openOk : Bool) (elapsed : ℚ)
        (t : String) (s : List ReadEvent) (init : Option Table),
      ProcessCSVOptimized { o with tuneOk := f } openOk elapsed t s init =
        ProcessCSVOptimized { o with tuneOk := g } openOk elapsed t s init) := by
  constructor
  · intro o
    exact ⟨rfl, tuneLoop_eq o _⟩
  · intro o f g openOk elapsed t s init
    unfold ProcessCSVOptimized optimizeForBulkInsert
    rcases s with _ | ⟨⟨m⟩ | hs, rest⟩ <;>
      simp only [tuneLoop_eq, copyInsert_tuneOk_irrel]

/-- C3: final report correctness — on every successful load the printed final
report counts exactly the data records read from the source (header excluded,
the finalizing zero-argument submission not counted), that count equals the
number of records submitted to the COPY channel, and the reported rate is the
count divided by the elapsed seconds. -/
theorem process_report_correct (o : DBOracle) (openOk : Bool) (elapsed : ℚ)
    (t : String) (s : List ReadEvent) (init : Option Table)
    (h : (ProcessCSVOptimized o openOk elapsed t s init).outcome = .ok ()) :
    ∃ headers rest, s = .ok headers :: rest ∧
      (ProcessCSVOptimized o openOk elapsed t s init).report =
        some ⟨countRecords rest, elapsed, (countRecords rest : ℚ) / elapsed⟩ ∧
      (copyInsert o t (cleanHeaders headers) rest).submitted = countRecords rest := by
  by_cases hopen : openOk
  · rcases s with _ | ⟨em | headers, rest⟩
    · simp [ProcessCSVOptimized, hopen] at h
    · simp [ProcessCSVOptimized, hopen] at h
    · refine ⟨headers, rest, rfl, ?_⟩
      by_cases hd : o.dropOk
      · by_cases hc : o.createOk
        · rcases hco : (copyInsert o t (cleanHeaders headers) rest).outcome with e | n
          · simp [ProcessCSVOptimized, hopen, hd, hc, hco] at h
          · obtain ⟨h1, h2, _⟩ := copyInsert_ok_cases _ _ _ _ _ hco
            obtain ⟨h3, h4⟩ := copyLoop_ok_count o rest 0 n h1
            have hn : n = countRecords rest := by omega
            subst hn
            constructor
            · simp [ProcessCSVOptimized, hopen, hd, hc, hco]
            · rw [h2, h4]
        · simp [ProcessCSVOptimized, hopen, hd, hc] at h
      · simp [ProcessCSVOptimized, hopen, hd] at h
  · simp [ProcessCSVOptimized, hopen] at h

/-- Witness for C3: a successful two-column, one-record load reports count 1
and rate 1/2 over 2 elapsed seconds. -/
theorem process_report_correct_witness :
    (ProcessCSVOptimized allOkOracle true 2 "t" [.ok ["A"], .ok ["x", "y"]] none).report =
      some ⟨1, 2, (1 : ℚ) / 2⟩ ∧
    (copyInsert allOkOracle "t" (cleanHeaders ["A"]) [.ok ["x", "y"]]).submitted = 1 := by
  obtain ⟨hs, rest, heq, h1, h2⟩ :=
    process_report_correct allOkOracle true 2 "t" [.ok ["A"], .ok ["x", "y"]] none
      (by decide)
  have hh : (["A"] : List String) = hs ∧ ([.ok ["x", "y"]] : List ReadEvent) = rest := by
    simpa using heq
  obtain ⟨hhs, hrest⟩ := hh
  subst hhs
  subst hrest
  constructor
  · simpa [countRecords] using h1
  · simpa [countRecords] using h2

/-- C4: statement ordering and transaction boundary — the unconditional drop is
issued before the create, both strictly before the atomic unit of work (the
trace prefix before `beginTx` holds only tuning statements and the two DDL
statements, and the copy phase starts with `beginTx`); a failure during the
copy phase leaves the freshly created empty relation in place. -/
theorem process_ddl_order (o : DBOracle) (elapsed : ℚ) (t : String)
    (headers : Record) (rest : List ReadEvent) (init : Option Table)
    (hd : o.dropOk = true) (hc : o.createOk = true) :
    (ProcessCSVOptimized o true elapsed t (.ok headers :: rest) init).trace =
      tuneLoop o (List.range tuneStatementCount) ++
        [.exec (.dropTable t), .exec (.createTable t (deriveSchema headers))] ++
        (copyInsert o t (cleanHeaders headers) rest).trace ∧
    (∀ e ∈ tuneLoop o (List.range tuneStatementCount), ∃ i, e = .exec (.tune i)) ∧
    ((copyInsert o t (cleanHeaders headers) rest).trace).head? = some .beginTx ∧
    (∀ er : LoadError,
      (copyInsert o t (cleanHeaders headers) rest).outcome = .error er →
      (ProcessCSVOptimized o true elapsed t (.ok headers :: rest) init).table =
        some ⟨t, deriveSchema headers, 0⟩) := by
  refine ⟨?_, ?_, copyInsert_trace_head o t (cleanHeaders headers) rest, ?_⟩
  · rcases hco : (copyInsert o t (cleanHeaders headers) rest).outcome with e | n <;>
      simp [ProcessCSVOptimized, optimizeForBulkInsert, hd, hc, hco]
  · intro e he
    rw [tuneLoop_eq] at he
    obtain ⟨i, _, hi⟩ := List.mem_map.mp he
    exact ⟨i, hi.symm⟩
  · intro er her
    have hnc := copyInsert_error_not_committed _ _ _ _ _ her
    simp [ProcessCSVOptimized, hd, hc, her, visibleRows, hnc]

/-- Witness for C4: with the second record rejected, the trace still shows
tuning, then drop, then create, then the copy phase, and the failed load
leaves the empty freshly created relation. -/
theorem process_ddl_order_witness :
    (ProcessCSVOptimized failSecondOracle true 1 "t"
        [.ok ["A"], .ok ["x"], .ok ["y"]] none).trace =
      tuneLoop failSecondOracle (List.range tuneStatementCount) ++
        [.exec (.dropTable "t"), .exec (.createTable "t" (deriveSchema ["A"]))] ++
        (copyInsert failSecondOracle "t" (cleanHeaders ["A"]) [.ok ["x"], .ok ["y"]]).trace ∧
    (ProcessCSVOptimized failSecondOracle true 1 "t"
        [.ok ["A"], .ok ["x"], .ok ["y"]] none).table =
      some ⟨"t", deriveSchema ["A"], 0⟩ := by
  have h := process_ddl_order failSecondOracle 1 "t" ["A"] [.ok ["x"], .ok ["y"]]
    none rfl rfl
  exact ⟨h.1, h.2.2.2 (.copyLine 2) (by decide)⟩

/-- C6: empty input — with only a header row and zero data records, and a
destination accepting every statement of the load path, the load succeeds,
the relation is created with the derived schema and zero rows, no record is
submitted, the channel is still finalized and the transaction committed, and
the reported count is 0. -/
theorem empty_input_load (o : DBOracle) (elapsed : ℚ) (t : String)
    (headers : Record) (init : Option Table)
    (hd : o.dropOk = true) (hc : o.createOk = true) (hb : o.beginOk = true)
    (hp : o.prepareOk = true) (hf : o.finalizeOk = true) (hcl : o.closeOk = true)
    (hcm : o.commitOk = true) :
    ProcessCSVOptimized o true elapsed t [.ok headers] init =
      { outcome := .ok (),
        report := some ⟨0, elapsed, 0⟩,
        table := some ⟨t, deriveSchema headers, 0⟩,
        trace := (List.range tuneStatementCount).map (fun i => .exec (.tune i)) ++
          [.exec (.dropTable t), .exec (.createTable t (deriveSchema headers)),
            .beginTx, .prepareCopy t (cleanHeaders headers),
            .finalizeCopy, .closeCopy, .commitTx] } := by
  unfold ProcessCSVOptimized optimizeForBulkInsert copyInsert
  simp [hd, hc, hb, hp, hf, hcl, hcm, copyLoop, tuneLoop_eq, visibleRows]

/-- Witness for C6: the header-only load at a fully accepting destination. -/
theorem empty_input_load_witness :
    ProcessCSVOptimized allOkOracle true 1 "t" [.ok ["First Name"]] none =
      { outcome := .ok (),
        report := some ⟨0, 1, 0⟩,
        table := some ⟨"t", deriveSchema ["First Name"], 0⟩,
        trace := (List.range tuneStatementCount).map (fun i => .exec (.tune i)) ++
          [.exec (.dropTable "t"), .exec (.createTable "t" (deriveSchema ["First Name"])),
            .beginTx, .prepareCopy "t" (cleanHeaders ["First Name"]),
            .finalizeCopy, .closeCopy, .commitTx] } :=
  empty_input_load allOkOracle 1 "t" ["First Name"] none rfl rfl rfl rfl rfl rfl rfl

/-- C7: row-level error context — a failure while reading record K (a read
error whose message is not `"EOF"`) or while submitting record K (K 1-based
among data records, header excluded) makes `copyInsert` return immediately
with an error carrying K and the failing operation; nothing past record K is
read or submitted and no retry happens (the whole result, trace included, is
pinned). -/
theorem row_error_context (o : DBOracle) (t : String) (hdrs : List String)
    (rs : List Record) (m : String) (r : Record) (tailA tailB : List ReadEvent)
    (hb : o.beginOk = true) (hp : o.prepareOk = true)
    (hsub : ∀ k, 1 ≤ k → k ≤ rs.length → o.submitOk k = true) :
    (m ≠ "EOF" →
      copyInsert o t hdrs (rs.map .ok ++ .error m :: tailA) =
        { outcome := .error (.readLine (rs.length + 1) m),
          trace := [.beginTx, .prepareCopy t hdrs] ++ submitTrace rs 0 ++
            [.rollbackTx],
          submitted := rs.length, begun := true, committed := false }) ∧
    (o.submitOk (rs.length + 1) = false →
      copyInsert o t hdrs (rs.map .ok ++ .ok r :: tailB) =
        { outcome := .error (.copyLine (rs.length + 1)),
          trace := [.beginTx, .prepareCopy t hdrs] ++ submitTrace rs 0 ++
            [.submitRow (rs.length + 1) r, .rollbackTx],
          submitted := rs.length, begun := true, committed := false }) := by
  constructor
  · intro hm
    have hpre := copyLoop_over_records o rs (.error m :: tailA) 0
      (fun k h1 h2 => hsub k (by omega) (by simpa using h2))
    simp only [Nat.zero_add] at hpre
    unfold copyInsert
    simp [hb, hp, hpre, copyLoop, hm]
  · intro hk
    have hpre := copyLoop_over_records o rs (.ok r :: tailB) 0
      (fun k h1 h2 => hsub k (by omega) (by simpa using h2))
    simp only [Nat.zero_add] at hpre
    unfold copyInsert
    simp [hb, hp, hpre, copyLoop, hk]

/-- Witness for C7: with only the first submission accepted, a read failure
`"boom"` at record 2 and a rejected submission at record 2 each produce the
indexed error and stop after record 1. -/
theorem row_error_context_witness :
    copyInsert onlyFirstOracle "t" ["a"] [.ok ["x"], .error "boom"] =
      { outcome := .error (.readLine 2 "boom"),
        trace := [.beginTx, .prepareCopy "t" ["a"], .submitRow 1 ["x"], .rollbackTx],
        submitted := 1, begun := true, committed := false } ∧
    copyInsert onlyFirstOracle "t" ["a"] [.ok ["x"], .ok ["y"]] =
      { outcome := .error (.copyLine 2),
        trace := [.beginTx, .prepareCopy "t" ["a"], .submitRow 1 ["x"],
          .submitRow 2 ["y"], .rollbackTx],
        submitted := 1, begun := true, committed := false } := by
  have h := row_error_context onlyFirstOracle "t" ["a"] [["x"]] "boom" ["y"] [] []
    rfl rfl
    (fun k h1 h2 => by
      have hk : k = 1 := Nat.le_antisymm h2 h1
      subst hk
      rfl)
  exact ⟨by simpa [submitTrace] using h.1 (by decide),
    by simpa [submitTrace] using h.2 (by decide)⟩

/-- C10: end of stream is detected by comparing the read error's message with
the literal string `"EOF"` — a mid-stream read failure whose message is
exactly `"EOF"` is treated as normal end of input (the loop exits, the channel
is finalized, the transaction commits, and the records read so far become
visible; the rest of the stream is never read), while a read failure with any
other message aborts the load with an error. -/
theorem eof_by_string_comparison (o : DBOracle) (t : String) (hdrs : List String)
    (rs : List Record) (tail : List ReadEvent)
    (hb : o.beginOk = true) (hp : o.prepareOk = true) (hf : o.finalizeOk = true)
    (hcl : o.closeOk = true) (hcm : o.commitOk = true)
    (hsub : ∀ k, 1 ≤ k → k ≤ rs.length → o.submitOk k = true) :
    copyInsert o t hdrs (rs.map .ok ++ .error "EOF" :: tail) =
      { outcome := .ok rs.length,
        trace := [.beginTx, .prepareCopy t hdrs] ++ submitTrace rs 0 ++
          [.finalizeCopy, .closeCopy, .commitTx],
        submitted := rs.length, begun := true, committed := true } ∧
    visibleRows (copyInsert o t hdrs (rs.map .ok ++ .error "EOF" :: tail)) =
      rs.length ∧
    (∀ m, m ≠ "EOF" → ∃ e,
      (copyInsert o t hdrs (rs.map .ok ++ .error m :: tail)).outcome = .error e) := by
  have hpre := copyLoop_over_records o rs (.error "EOF" :: tail) 0
    (fun k h1 h2 => hsub k (by omega) (by simpa using h2))
  simp only [Nat.zero_add] at hpre
  have hmain : copyInsert o t hdrs (rs.map .ok ++ .error "EOF" :: tail) =
      { outcome := .ok rs.length,
        trace := [.beginTx, .prepareCopy t hdrs] ++ submitTrace rs 0 ++
          [.finalizeCopy, .closeCopy, .commitTx],
        submitted := rs.length, begun := true, committed := true } := by
    unfold copyInsert
    simp [hb, hp, hpre, copyLoop, hf, hcl, hcm]
  refine ⟨hmain, by simp [hmain, visibleRows], ?_⟩
  intro m hm
  have hpre2 := copyLoop_over_records o rs (.error m :: tail) 0
    (fun k h1 h2 => hsub k (by omega) (by simpa using h2))
  simp only [Nat.zero_add] at hpre2
  refine ⟨.readLine (rs.length + 1) m, ?_⟩
  unfold copyInsert
  simp [hb, hp, hpre2, copyLoop, hm]

/-- Witness for C10: a mid-stream `"EOF"`-message failure commits the one
record read before it; the rest of the stream is never touched. -/
theorem eof_by_string_comparison_witness :
    copyInsert allOkOracle "t" ["a"] [.ok ["x"], .error "EOF", .ok ["z"]] =
      { outcome := .ok 1,
        trace := [.beginTx, .prepareCopy "t" ["a"], .submitRow 1 ["x"],
          .finalizeCopy, .closeCopy, .commitTx],
        submitted := 1, begun := true, committed := true } := by
  have h := eof_by_string_comparison allOkOracle "t" ["a"] [["x"]] [.ok ["z"]]
    rfl rfl rfl rfl rfl (fun k h1 h2 => rfl)
  simpa [submitTrace] using h.1

/-- C9: the legacy entry point `ProcessCSV` is extensionally equal to
`ProcessCSVOptimized`: for every destination behaviour, source and relation
name it performs the same operations and returns the same result. -/
theorem processCSV_eq_optimized (o : DBOracle) (openOk : Bool) (elapsed : ℚ)
    (t : String) (s : List ReadEvent) (init : Option Table) :
    ProcessCSV o openOk elapsed t s init =
      ProcessCSVOptimized o openOk elapsed t s init := rfl

end BCE
